import Mathlib

/-!
Verification development for the zkFuzzer repository.

The definitions below are shallow embeddings of the JavaScript sources:

* `src/fuzzer/circom-fuzzer.js` (the second definition of the
  `CircomFuzzer` class, lines 407-1286): the graph-based
  `analyzeR1CSConstraints`, `findConnectedComponents` /
  `depthFirstSearch`, `generateMutatedInputs`,
  `generateRandomFieldElement` and `testForUnderconstrainedVariables`.
* `src/fuzzer/nullifier-fuzzer.js`: `NullifierReuseAnalyzer.analyzeNullifierReuse`.
* `src/unnamed/part_002`: the `R1CSParser` class.

Conventions of the embedding:

* JavaScript objects used as dictionaries are modelled as association
  lists in insertion order; iteration over object keys or `Map`/`Set`
  entries is modelled as iteration over the list.  Keys of one object
  are distinct, so occurrence tests use list membership.
* Field elements and witness bytes are modelled as natural numbers;
  decimal string representations are produced with `Nat.repr`,
  matching `BigInt.prototype.toString`.
* `Math.random()`-derived draws are modelled by explicit draw
  families; a draw `floor(Math.random() * n)` ranging over `[0, n)` is
  modelled as `draw % n`.
* Fallible code returns `Except String`; a thrown `Error` is the
  `.error` constructor carrying the message string.
-/

/-! ### Generic list helpers -/

/-- Append an element to an accumulator unless it is already present.
This models insertion into a JS `Set` / first assignment of an object
key: insertion order is kept, later duplicates are dropped. -/
def insertOnce {α : Type} [DecidableEq α] (acc : List α) (a : α) : List α :=
  if a ∈ acc then acc else acc ++ [a]

/-- First-occurrence deduplication, i.e. the key list of a JS object or
`Map` built by inserting the elements of `l` in order. -/
def dedupKeep {α : Type} [DecidableEq α] (l : List α) : List α :=
  l.foldl insertOnce []

/-! ### Signal-dependency analysis

Embedding of `analyzeR1CSConstraints` of the second `CircomFuzzer`
definition (`src/fuzzer/circom-fuzzer.js` lines 720-931), together
with `findConnectedComponents` (lines 997-1014) and
`depthFirstSearch` (lines 1047-1061).
-/

/-- One R1CS constraint of the snarkjs JSON export: an array `[L, R, O]`
of three objects mapping signal-id strings to coefficient strings.
Only the key lists matter to the analysis, so each part is modelled by
its list of signal-id keys (keys of one JS object are distinct). -/
structure Triple where
  l : List String
  r : List String
  o : List String
deriving DecidableEq, Repr

/-- The fields of the parsed `r1csData` JSON that the analysis and its
signal-name mapping consult.  `nPubInputs` and `nOutputs` are used by
`createSignalNameMapping` only, to locate output signals. -/
structure R1CSData where
  nPubInputs : Nat
  nOutputs : Nat
  constraints : List Triple
deriving DecidableEq, Repr

/-- Signal ids that `createSignalNameMapping` (lines 936-982) treats as
circuit outputs: `outputStart = nPubInputs + 1` and the following
`nOutputs` ids. -/
def outputSignalIds (d : R1CSData) : List String :=
  (List.range d.nOutputs).map (fun k => Nat.repr (d.nPubInputs + 1 + k))

/-- Contribution of one constraint part to `signalDependencies`: the
`for (const signalId in part)` loop increments the count once for each
key of the part other than the constant `"0"`. -/
def partInc (part : List String) (s : String) : Nat :=
  if s ≠ "0" ∧ s ∈ part then 1 else 0

/-- The count stored in the `signalDependencies` map for signal `s`:
each constraint contributes one increment per part (L, R, O) whose key
set contains `s` (lines 777-815). -/
def usageCount (cs : List Triple) (s : String) : Nat :=
  cs.foldl (fun n c => n + partInc c.l s + partInc c.r s + partInc c.o s) 0

/-- All non-constant signal-id keys, in the scan order of the source
(per constraint: L keys, then R keys, then O keys). -/
def allKeys (cs : List Triple) : List String :=
  (cs.flatMap (fun c => c.l ++ c.r ++ c.o)).filter (fun s => s ≠ "0")

/-- Insertion order of the `signalDependencies` map: signals in order of
first appearance. -/
def seenOrder (cs : List Triple) : List String :=
  dedupKeep (allKeys cs)

/-- Number of constraints of `cs` that touch signal `s` in any of their
three parts (the quantity the specification calls the usage count). -/
def constraintsTouching (cs : List Triple) (s : String) : Nat :=
  cs.countP (fun c => decide (s ≠ "0" ∧ (s ∈ c.l ∨ s ∈ c.r ∨ s ∈ c.o)))

/-- The `constraintGraph`: a `Map` from driver signal id to the `Set` of
driven signal ids, as an association list in insertion order. -/
abbrev ConstraintGraph := List (String × List String)

/-- `if (!constraintGraph.has(input)) constraintGraph.set(input, new Set())`. -/
def ensureKey (g : ConstraintGraph) (k : String) : ConstraintGraph :=
  if (g.lookup k).isSome then g else g ++ [(k, [])]

/-- Add all of `outs` to the edge set of key `k` (`Set.add`, so
duplicates are dropped, insertion order kept). -/
def addTargets (g : ConstraintGraph) (k : String) (outs : List String) : ConstraintGraph :=
  g.map (fun e => if e.1 = k then (e.1, outs.foldl insertOnce e.2) else e)

/-- The non-constant keys of a part collected into a JS `Set`
(`inputSignals` / `outputSignals`, lines 775-815). -/
def partSet (part : List String) : List String :=
  dedupKeep (part.filter (fun s => s ≠ "0"))

/-- Process one constraint `[L, R, O]`: drivers are the non-constant
keys of L and R, driven the non-constant keys of O; every driver gets
an edge to every driven signal (lines 817-831). -/
def addConstraintEdges (g : ConstraintGraph) (c : Triple) : ConstraintGraph :=
  let ins := partSet (c.l ++ c.r)
  let outs := partSet c.o
  ins.foldl (fun g i => addTargets (ensureKey g i) i outs) g

/-- The `constraintGraph` built by the `forEach` over the constraints. -/
def buildGraph (cs : List Triple) : ConstraintGraph :=
  cs.foldl addConstraintEdges []

/-- Outgoing edge set of a node, `graph.get(node) || new Set()`. -/
def neighborsOf (g : ConstraintGraph) (n : String) : List String :=
  (g.lookup n).getD []

/-- All nodes of the directed dependency graph: every signal occurring
as a key or as an edge target. -/
def graphNodes (g : ConstraintGraph) : List String :=
  dedupKeep (g.map (fun e => e.1) ++ g.flatMap (fun e => e.2))

/-- `depthFirstSearch(graph, node, visited, component)` (lines
1047-1061): mark `node` visited, then recurse into each not-yet-visited
neighbour.  The shared `visited` list is threaded and extended at the
end; the fuel bounds the recursion depth (each nested call visits a new
node, so any fuel larger than the node count is never exhausted). -/
def depthFirstSearch (g : ConstraintGraph) : Nat → String → List String → List String
  | 0, _, visited => visited
  | fuel + 1, node, visited =>
      (neighborsOf g node).foldl
        (fun vis nb => if nb ∈ vis then vis else depthFirstSearch g fuel nb vis)
        (visited ++ [node])

/-- Fuel that dominates the number of distinct nodes of `g`. -/
def dfsFuel (g : ConstraintGraph) : Nat :=
  g.length + (g.map (fun e => e.2.length)).sum + 1

/-- `findConnectedComponents(graph)` (lines 997-1014): scan the map keys
in insertion order; each unvisited key starts a depth-first search over
the *directed* edges, and the nodes newly visited form one component. -/
def findConnectedComponents (g : ConstraintGraph) : List (List String) :=
  ((g.map (fun e => e.1)).foldl
    (fun (st : List String × List (List String)) k =>
      if k ∈ st.1 then st
      else
        let v2 := depthFirstSearch g (dfsFuel g) k st.1
        (v2, st.2 ++ [v2.drop st.1.length]))
    ([], [])).2

/-- A finding pushed by `analyzeR1CSConstraints`. -/
structure Finding where
  ftype : String
  severity : String
  signal : Option String
deriving DecidableEq, Repr

/-- Finding for a graph key with an empty outgoing edge set (lines 871-884). -/
def mkLeafFinding (s : String) : Finding :=
  { ftype := "potential-leaf-signal", severity := "medium", signal := some s }

/-- Finding pushed when more than one component is found (lines 886-905). -/
def mkDisconnectedFinding : Finding :=
  { ftype := "disconnected-constraint-graph", severity := "high", signal := none }

/-- Finding for a signal whose `signalDependencies` count is exactly one
(lines 908-921). -/
def mkUnconstrainedFinding (s : String) : Finding :=
  { ftype := "potential-unconstrained-signal", severity := "high", signal := some s }

/-- `analyzeR1CSConstraints` (second definition, lines 720-931): build
the constraint graph and the usage counts, then report leaf signals,
a single disconnected-graph finding when more than one component was
found, and the signals used exactly once, in that order. -/
def analyzeR1CSConstraints (d : R1CSData) : List Finding :=
  let g := buildGraph d.constraints
  let comps := findConnectedComponents g
  let leafFindings := (g.filter (fun e => e.2 = [])).map (fun e => mkLeafFinding e.1)
  let discFindings := if 1 < comps.length then [mkDisconnectedFinding] else []
  let uncFindings :=
    ((seenOrder d.constraints).filter (fun s => usageCount d.constraints s = 1)).map
      mkUnconstrainedFinding
  leafFindings ++ discFindings ++ uncFindings




/-! ### Differential mutation fuzzer

Embedding of `generateRandomFieldElement` (lines 456-461),
`generateMutatedInputs` (lines 472-501) and
`testForUnderconstrainedVariables` (lines 579-715) of the second
`CircomFuzzer` definition.
-/

/-- A JSON input value of an `InputAssignment`: a field-element decimal
string, or an array of such strings. -/
inductive JsVal where
  | str (s : String)
  | arr (xs : List String)
deriving DecidableEq, Repr

/-- An input assignment: a JSON object mapping signal names to values,
modelled as an association list in key order (keys distinct). -/
abbrev InputAssignment := List (String × JsVal)

/-- Object property read `a[key]`. -/
def lookupVal : InputAssignment → String → Option JsVal
  | [], _ => none
  | (k, v) :: rest, key => if k = key then some v else lookupVal rest key

/-- Object property write `a[key] = v` (the key list is unchanged;
keys of a JS object are distinct, so replacing every matching entry
coincides with the JS update). -/
def setKey (a : InputAssignment) (key : String) (v : JsVal) : InputAssignment :=
  a.map (fun kv => if kv.1 = key then (kv.1, v) else kv)

/-- JS truthiness of `input.nullifierHash`: a missing property or the
empty string is falsy, any other string and any array is truthy. -/
def truthyVal : Option JsVal → Bool
  | none => false
  | some (JsVal.str s) => !(s = "")
  | some (JsVal.arr _) => true

/-- The BN254 prime, `this.fieldSize`. -/
def fieldSize : Nat :=
  21888242871839275222246405745257275088548364400416034343698204186575808495617

/-- `generateRandomFieldElement` (lines 456-461): a 256-bit random
integer `draw` reduced modulo the field size, rendered in decimal. -/
def generateRandomFieldElement (draw : Nat) : String :=
  Nat.repr (draw % fieldSize)

/-- The random draws consumed by one call of `generateMutatedInputs`,
indexed by the mutation number `i` and the inner pick number `j`.  A JS
draw `Math.floor(Math.random() * n)` ranges over `[0, n)`; the
embedding realises the range by reducing the recorded draw `% n`. -/
structure RandSource where
  fieldsDraw : Nat → Nat
  keyDraw : Nat → Nat → Nat
  arrDraw : Nat → Nat → Nat
  valDraw : Nat → Nat → Nat

/-- One pick of the inner `for (let j = 0; ...)` loop of
`generateMutatedInputs`: choose a random key of the template, then
replace the scalar, or a random element of the array, with a fresh
random field element. -/
def mutatePick (r : RandSource) (keys : List String) (i : Nat) (cur : InputAssignment)
    (j : Nat) : InputAssignment :=
  let key := (keys.get? (r.keyDraw i j % keys.length)).getD ""
  match lookupVal cur key with
  | some (JsVal.arr xs) =>
      let ai := r.arrDraw i j % xs.length
      setKey cur key (JsVal.arr (xs.set ai (generateRandomFieldElement (r.valDraw i j))))
  | some (JsVal.str _) =>
      setKey cur key (JsVal.str (generateRandomFieldElement (r.valDraw i j)))
  | none => cur

/-- Body of the outer mutation loop: deep-copy the template (value
copy in the embedding), then mutate `min(floor(rand*3)+1, keys.length)`
randomly chosen fields. -/
def mutateInput (r : RandSource) (i : Nat) (template : InputAssignment) : InputAssignment :=
  let keys := template.map (fun kv => kv.1)
  let fieldsToMutate := min (r.fieldsDraw i % 3 + 1) keys.length
  (List.range fieldsToMutate).foldl (mutatePick r keys i) template

/-- `generateMutatedInputs(inputTemplate, mutationCount)` (lines
472-501): produce `mutationCount` mutated copies; a template with no
keys is skipped (`continue`), so it contributes no mutant. -/
def generateMutatedInputs (template : InputAssignment) (mutationCount : Nat)
    (r : RandSource) : List InputAssignment :=
  (List.range mutationCount).foldl
    (fun acc i => if template.length = 0 then acc else acc ++ [mutateInput r i template])
    []

/-- Number of fields (keys) of `t` at which `m` holds a different
value — the sense in which a mutant "differs from the template". -/
def countDiffFields (m t : InputAssignment) : Nat :=
  (t.filter (fun kv => !(lookupVal m kv.1 = some kv.2))).length

/-- A witness file: an uninterpreted byte sequence, compared only for
equality (`witness1.equals(witness2)`). -/
abbrev Witness := List Nat

/-- A result element returned by `testForUnderconstrainedVariables`. -/
inductive TestResult where
  /-- The `witness_error` record returned when
  the baseline witness cannot be produced (lines 605-608). -/
  | witnessError (details : String)
  /-- The `under-constrained-variable` finding of the nullifier-bypass
  probe (lines 629-634). -/
  | nullifierBypass
  /-- The `under-constrained-variable` finding for mutation number
  `idx` (1-based) whose witness equalled the baseline (lines 671-676). -/
  | mutationIdentical (idx : Nat)
  /-- A finding forwarded from the static R1CS analysis fallback
  (line 700). -/
  | fromStatic (f : Finding)
deriving DecidableEq, Repr

/-- The `type` field of a result element. -/
def testResultType : TestResult → String
  | TestResult.witnessError _ => "witness_error"
  | TestResult.nullifierBypass => "under-constrained-variable"
  | TestResult.mutationIdentical _ => "under-constrained-variable"
  | TestResult.fromStatic f => f.ftype

/-- The `severity` field of a result element (`witness_error` records
carry none; rendered as the empty string). -/
def testResultSeverity : TestResult → String
  | TestResult.witnessError _ => ""
  | TestResult.nullifierBypass => "high"
  | TestResult.mutationIdentical _ => "high"
  | TestResult.fromStatic f => f.severity

/-- The mutation sweep (lines 654-685): for trial `i`, attempt witness
generation on mutant `i` (`gen i = none` models rejection by the
generator); on success compare the bytes with the baseline `w0` and
push a finding exactly when they are equal. -/
def mutationSweep (mutants : List InputAssignment) (gen : Nat → Option Witness)
    (w0 : Witness) : List TestResult :=
  (List.range mutants.length).filterMap (fun i =>
    match gen i with
    | some w => if w = w0 then some (TestResult.mutationIdentical (i + 1)) else none
    | none => none)

/-- The external interactions of one `testForUnderconstrainedVariables`
run: the baseline witness generation (throwing with a message on
failure), the verdict of the generator on the tampered nullifier
input, the result of the generator per mutation trial, the random
draws, and the
findings of the R1CS static-analysis fallback. -/
structure FuzzOracle where
  baselineWitness : Except String Witness
  probeAccepts : Bool
  rand : RandSource
  mutantGen : Nat → Option Witness
  staticFindings : List Finding

/-- `testForUnderconstrainedVariables(inputTemplate)` (lines 579-715):
obtain the baseline witness (failure returns the error record); if the
input has a truthy `nullifierHash`, tamper with it and report a
finding exactly when the generator accepts, returning it immediately;
otherwise run the mutation sweep over 3 mutants and return its
findings when non-empty; otherwise fall back to the static R1CS
analysis. -/
def testForUnderconstrainedVariables (o : FuzzOracle) (template : InputAssignment) :
    List TestResult :=
  match o.baselineWitness with
  | Except.error e => [TestResult.witnessError e]
  | Except.ok w0 =>
      let findings :=
        if truthyVal (lookupVal template "nullifierHash") then
          if o.probeAccepts then [TestResult.nullifierBypass] else []
        else []
      if 0 < findings.length then findings
      else
        let mutants := generateMutatedInputs template 3 o.rand
        let mutationFindings := mutationSweep mutants o.mutantGen w0
        if 0 < mutationFindings.length then mutationFindings
        else o.staticFindings.map TestResult.fromStatic



/-! ### Nullifier-reuse analyzer

Embedding of `NullifierReuseAnalyzer.analyzeNullifierReuse`
(`src/fuzzer/nullifier-fuzzer.js` lines 67-111).  The Poseidon hash is
an external collaborator (`circomlibjs`), abstracted as a function on
field elements; field elements are modelled as naturals.
-/

/-- One scenario test case; `analyzeNullifierReuse` hashes the
`merkleRoot` and `leafValue` fields. -/
structure NTestCase where
  scenario : String
  merkleRoot : Nat
  leafValue : Nat
  voterIndex : Nat
deriving DecidableEq, Repr

/-- `F.toString(poseidon([F.e(testCase.merkleRoot), F.e(testCase.leafValue)]))`,
with the two-argument Poseidon abstracted as `hash`. -/
def computeNullifier (hash : Nat → Nat → Nat) (tc : NTestCase) : Nat :=
  hash tc.merkleRoot tc.leafValue

/-- The `nullifierHashes` object: hash value to the list of test cases
producing it, in insertion order. -/
abbrev NullifierGroups := List (Nat × List NTestCase)

/-- `if (!nullifierHashes[h]) nullifierHashes[h] = []; nullifierHashes[h].push(tc)`. -/
def addToGroup (acc : NullifierGroups) (hv : Nat) (tc : NTestCase) : NullifierGroups :=
  if hv ∈ acc.map (fun g => g.1) then
    acc.map (fun g => if g.1 = hv then (g.1, g.2 ++ [tc]) else g)
  else acc ++ [(hv, [tc])]

/-- The grouping pass of `analyzeNullifierReuse` (lines 72-85). -/
def buildGroups (hash : Nat → Nat → Nat) (testCases : List NTestCase) : NullifierGroups :=
  testCases.foldl (fun acc tc => addToGroup acc (computeNullifier hash tc) tc) []

/-- A vulnerability record pushed by `analyzeNullifierReuse`. -/
structure NVuln where
  vtype : String
  severity : String
  nullifierHash : Nat
  duplicateCases : List NTestCase
deriving DecidableEq, Repr

/-- The reporting pass of `analyzeNullifierReuse` (lines 88-100): one
`Nullifier Reuse` / `Critical` record per group holding more than one
test case. -/
def analyzeNullifierReuse (hash : Nat → Nat → Nat) (testCases : List NTestCase) :
    List NVuln :=
  ((buildGroups hash testCases).filter (fun g => 1 < g.2.length)).map
    (fun g => { vtype := "Nullifier Reuse", severity := "Critical",
                nullifierHash := g.1, duplicateCases := g.2 })

/-- The key list of the `nullifierHashes` object: hash values in first
occurrence order. -/
def nullifierKeysOrder (hash : Nat → Nat → Nat) (testCases : List NTestCase) : List Nat :=
  dedupKeep (testCases.map (computeNullifier hash))

/-- Closed form of the grouping object: one entry per distinct hash
value, carrying all test cases of that hash in order. -/
def groupsSpec (hash : Nat → Nat → Nat) (testCases : List NTestCase) : NullifierGroups :=
  (nullifierKeysOrder hash testCases).map
    (fun hv => (hv, testCases.filter (fun tc => computeNullifier hash tc == hv)))

/-! ### R1CS parser

Embedding of the `R1CSParser` class (`src/unnamed/part_002`).  The
JSON input of `parseR1CSJson` after `readJsonFile` is modelled
directly (file access is external I/O); `hasOwnProperty` checks are
modelled by `Option` fields.
-/

/-- One entry of a constraint part in the expected parser format:
`{ signal, coefficient }`, either property possibly absent. -/
structure RawEntry where
  signal : Option String
  coefficient : Option String
deriving DecidableEq, Repr

/-- One raw constraint: properties `l`, `r`, `o`, possibly absent. -/
structure RawConstraint where
  l : Option (List RawEntry)
  r : Option (List RawEntry)
  o : Option (List RawEntry)
deriving DecidableEq, Repr

/-- One raw signal: property `name`, possibly absent. -/
structure RawSignal where
  name : Option String
deriving DecidableEq, Repr

/-- The raw parsed JSON document: the three required top-level fields,
each possibly absent. -/
structure RawR1CS where
  constraints : Option (List RawConstraint)
  signals : Option (List RawSignal)
  r1csVersion : Option String
deriving DecidableEq, Repr

/-- A sanitized constraint-part entry. -/
structure PEntry where
  signal : String
  coefficient : String
deriving DecidableEq, Repr

/-- A sanitized constraint. -/
structure PConstraint where
  l : List PEntry
  r : List PEntry
  o : List PEntry
deriving DecidableEq, Repr

/-- A sanitized signal. -/
structure PSignal where
  name : String
deriving DecidableEq, Repr

/-- The processed data produced by `processR1CSData`. -/
structure ProcessedR1CS where
  constraints : List PConstraint
  signals : List PSignal
deriving DecidableEq, Repr

/-- `forEach` with a throwing body: stop at the first error. -/
def forEachIdxAux {α : Type} (f : Nat → α → Except String Unit) :
    Nat → List α → Except String Unit
  | _, [] => Except.ok ()
  | i, x :: xs =>
      match f i x with
      | Except.ok () => forEachIdxAux f (i + 1) xs
      | Except.error e => Except.error e

/-- Indexed `forEach` over a list with a throwing body. -/
def forEachIdx {α : Type} (xs : List α) (f : Nat → α → Except String Unit) :
    Except String Unit :=
  forEachIdxAux f 0 xs

/-- `validateConstraintPart` (lines 130-146). -/
def validateConstraintPart (part : List RawEntry) (partName : String)
    (constraintIndex : Nat) : Except String Unit :=
  forEachIdx part (fun signalIndex e =>
    if e.signal.isNone then
      Except.error s!"Missing signal property in {partName} part at constraint {constraintIndex}, signal {signalIndex}"
    else if e.coefficient.isNone then
      Except.error s!"Missing coefficient property in {partName} part at constraint {constraintIndex}, signal {signalIndex}"
    else Except.ok ())

/-- The body run for each required part of one constraint in
`validateConstraintsStructure`: presence check, then part validation. -/
def validateOnePart (index : Nat) (partName : String)
    (part : Option (List RawEntry)) : Except String Unit :=
  match part with
  | none => Except.error s!"Constraint at index {index} missing required part: {partName}"
  | some entries => validateConstraintPart entries partName index

/-- `validateConstraintsStructure` (lines 104-122). -/
def validateConstraintsStructure (constraints : List RawConstraint) :
    Except String Unit :=
  forEachIdx constraints (fun index c => do
    validateOnePart index "l" c.l
    validateOnePart index "r" c.r
    validateOnePart index "o" c.o)

/-- `validateSignalsStructure` (lines 152-167). -/
def validateSignalsStructure (signals : List RawSignal) : Except String Unit :=
  forEachIdx signals (fun index s =>
    if s.name.isNone then
      Except.error s!"Signal at index {index} missing required field: name"
    else Except.ok ())

/-- `validateR1CSStructure` (lines 83-98): required top-level fields in
the schema order, then constraints and signals structure. -/
def validateR1CSStructure (data : RawR1CS) : Except String Unit := do
  if data.constraints.isNone then throw "Missing required field: constraints"
  if data.signals.isNone then throw "Missing required field: signals"
  if data.r1csVersion.isNone then throw "Missing required field: r1csVersion"
  validateConstraintsStructure (data.constraints.getD [])
  validateSignalsStructure (data.signals.getD [])

/-- `String(signal.coefficient || 0)` of the source, quotes around the
zero omitted: an absent or empty coefficient becomes the string zero. -/
def sanitizeCoefficient (c : Option String) : String :=
  let s := c.getD ""
  if s = "" then "0" else s

/-- `sanitizeConstraint` (lines 191-203), applied entrywise. -/
def sanitizeEntry (e : RawEntry) : PEntry :=
  { signal := e.signal.getD "", coefficient := sanitizeCoefficient e.coefficient }

/-- Sanitize one constraint (each part mapped entrywise; parts are
present whenever validation succeeded, an absent part defaults to the
empty list in the embedding). -/
def sanitizeConstraint (c : RawConstraint) : PConstraint :=
  { l := (c.l.getD []).map sanitizeEntry,
    r := (c.r.getD []).map sanitizeEntry,
    o := (c.o.getD []).map sanitizeEntry }

/-- `sanitizeSignal` (lines 210-215): the spread `...signal` restores
the original `name` value, so the name is kept as-is. -/
def sanitizeSignal (s : RawSignal) : PSignal :=
  { name := s.name.getD "" }

/-- `processR1CSData` (lines 174-184). -/
def processR1CSData (rawData : RawR1CS) : ProcessedR1CS :=
  { constraints := (rawData.constraints.getD []).map sanitizeConstraint,
    signals := (rawData.signals.getD []).map sanitizeSignal }

/-- The duplicate-signal error message of `checkSignalUniqueness`. -/
def dupMsg (name : String) (index : Nat) : String :=
  s!"Duplicate signal name found: {name} at index {index}"

/-- The dangling-reference error message of `checkConstraintConsistency`. -/
def refMsg (index : Nat) (signal : String) : String :=
  s!"Invalid signal reference in constraint {index}: {signal}"

/-- Scan of `checkSignalUniqueness` (lines 235-244): `seen` is the
`signalNames` set accumulated over the earlier signals, `i` the index
of the next signal. -/
def checkSignalUniquenessAux (seen : List String) (i : Nat) :
    List PSignal → Except String Unit
  | [] => Except.ok ()
  | s :: rest =>
      if s.name ∈ seen then Except.error (dupMsg s.name i)
      else checkSignalUniquenessAux (seen ++ [s.name]) (i + 1) rest

/-- `checkSignalUniqueness` (lines 235-244). -/
def checkSignalUniqueness (signals : List PSignal) : Except String Unit :=
  checkSignalUniquenessAux [] 0 signals

/-- The signal references of one constraint in the order scanned by
`checkConstraintConsistency` (`l`, then `r`, then `o`). -/
def entrySignals (c : PConstraint) : List String :=
  (c.l ++ c.r ++ c.o).map (fun e => e.signal)

/-- The entry scan of `checkConstraintConsistency` within constraint
`i`: throw at the first reference naming no signal in the list. -/
def checkEntriesRefs (signals : List PSignal) (i : Nat) :
    List String → Except String Unit
  | [] => Except.ok ()
  | s :: rest =>
      if signals.any (fun g => g.name = s) then checkEntriesRefs signals i rest
      else Except.error (refMsg i s)

/-- Constraint scan of `checkConstraintConsistency` (lines 250-266). -/
def checkConstraintConsistencyAux (signals : List PSignal) (i : Nat) :
    List PConstraint → Except String Unit
  | [] => Except.ok ()
  | c :: rest =>
      match checkEntriesRefs signals i (entrySignals c) with
      | Except.ok () => checkConstraintConsistencyAux signals (i + 1) rest
      | Except.error e => Except.error e

/-- `checkConstraintConsistency` (lines 250-266). -/
def checkConstraintConsistency (processedData : ProcessedR1CS) : Except String Unit :=
  checkConstraintConsistencyAux processedData.signals 0 processedData.constraints

/-- `performDetailedValidation` (lines 221-229): signal uniqueness, then
constraint consistency. -/
def performDetailedValidation (processedData : ProcessedR1CS) : Except String Unit := do
  checkSignalUniqueness processedData.signals
  checkConstraintConsistency processedData

/-- The validation-and-processing pipeline inside the `try` block of
`parseR1CSJson` (lines 32-50), on already-read JSON data. -/
def parseR1CSPipeline (rawData : RawR1CS) : Except String ProcessedR1CS := do
  validateR1CSStructure rawData
  let processedData := processR1CSData rawData
  performDetailedValidation processedData
  pure processedData

/-- The options object passed to the `R1CSParser` constructor; each
property may be absent.  JS truthiness of a supplied non-boolean value
reduces to a boolean here. -/
structure ParserOptions where
  verbose : Option Bool
  strictMode : Option Bool
deriving DecidableEq, Repr

/-- The parser state set up by the constructor. -/
structure ParserConfig where
  verbose : Bool
  strictMode : Bool
deriving DecidableEq, Repr

/-- JS `x || d` on an optional boolean: a truthy `x` wins, otherwise `d`. -/
def jsOr (x : Option Bool) (d : Bool) : Bool :=
  match x with
  | some true => true
  | _ => d

/-- The `R1CSParser` constructor (lines 9-25):
`this.verbose = options.verbose || false` and
`this.strictMode = options.strictMode || true`. -/
def mkR1CSParser (options : ParserOptions) : ParserConfig :=
  { verbose := jsOr options.verbose false,
    strictMode := jsOr options.strictMode true }

/-- `handleParsingError` (lines 273-292): rethrow in strict mode,
return `null` (modelled `Except.ok none`) otherwise. -/
def handleParsingError (cfg : ParserConfig) (e : String) :
    Except String (Option ProcessedR1CS) :=
  if cfg.strictMode then Except.error e else Except.ok none

/-- `parseR1CSJson` (lines 32-50) on already-read JSON data: run the
pipeline; a thrown error goes through `handleParsingError`. -/
def parseR1CSJson (cfg : ParserConfig) (rawData : RawR1CS) :
    Except String (Option ProcessedR1CS) :=
  match parseR1CSPipeline rawData with
  | Except.ok d => Except.ok (some d)
  | Except.error e => handleParsingError cfg e



/-- The processed signal list contains two signals with the same name. -/
def hasDuplicateName (signals : List PSignal) : Prop :=
  ¬ (signals.map PSignal.name).Nodup

/-- Some constraint references a signal name that is absent from the
signal list. -/
def hasDanglingRef (d : ProcessedR1CS) : Prop :=
  ∃ k c, d.constraints.get? k = some c ∧
    ∃ s ∈ entrySignals c, ∀ g ∈ d.signals, g.name ≠ s

/-- The error message is one of the two index-annotated messages of the
detailed validation, and the index it names is a genuine offence of
`d`: either the signal at that index repeats an earlier name, or the
constraint at that index references a name absent from the signal
list. -/
def offenseNamed (d : ProcessedR1CS) (msg : String) : Prop :=
  (∃ n i, msg = dupMsg n i ∧ d.signals.get? i = some ⟨n⟩ ∧
    n ∈ (d.signals.take i).map PSignal.name) ∨
  (∃ i s, msg = refMsg i s ∧ ∃ c, d.constraints.get? i = some c ∧
    s ∈ entrySignals c ∧ ∀ g ∈ d.signals, g.name ≠ s)

/-! ### Concrete instances used by witnesses and counterexamples -/

/-- A random source whose draws are all zero. -/
def zeroRand : RandSource :=
  { fieldsDraw := fun _ => 0, keyDraw := fun _ _ => 0,
    arrDraw := fun _ _ => 0, valDraw := fun _ _ => 0 }

/-- An oracle whose baseline witness generation succeeds and whose
generator accepts the tampered nullifier input. -/
def probeOracle : FuzzOracle :=
  { baselineWitness := Except.ok [1], probeAccepts := true, rand := zeroRand,
    mutantGen := fun _ => none, staticFindings := [] }

/-- An input assignment holding a (truthy) `nullifierHash` field. -/
def nullifierTemplate : InputAssignment := [("nullifierHash", JsVal.str "5")]

/-- A one-key, all-zero input template. -/
def oneKeyTemplate : InputAssignment := [("a", JsVal.str "0")]

/-- A single constraint whose L and O parts both contain signal `1`. -/
def sharedSignalData : R1CSData := ⟨0, 0, [⟨["1"], [], ["1"]⟩]⟩

/-- A single constraint driving signal `2` from signal `1`; the data
declares no outputs. -/
def leafExampleData : R1CSData := ⟨0, 0, [⟨["1"], [], ["2"]⟩]⟩

/-- Two constraints driving the same signal `3` from `1` and from `2`:
undirectedly one connected graph. -/
def vShapeData : R1CSData := ⟨0, 0, [⟨["1"], [], ["3"]⟩, ⟨["2"], [], ["3"]⟩]⟩

/-- A raw document with a duplicated signal name and no constraints. -/
def dupSignalRaw : RawR1CS := ⟨some [], some [⟨some "a"⟩, ⟨some "a"⟩], some "1"⟩

/-- A strict parser configuration. -/
def strictCfg : ParserConfig := ⟨false, true⟩

/-! ## Supporting lemmas -/

theorem mem_insertOnce {α : Type} [DecidableEq α] (acc : List α) (a b : α) :
    b ∈ insertOnce acc a ↔ b ∈ acc ∨ b = a := by
  unfold insertOnce
  by_cases h : a ∈ acc
  · rw [if_pos h]
    constructor
    · intro hb; exact Or.inl hb
    · rintro (hb | rfl) <;> [exact hb; exact h]
  · rw [if_neg h]; simp

theorem mem_foldl_insertOnce {α : Type} [DecidableEq α] (l : List α) :
    ∀ (acc : List α) (b : α), b ∈ l.foldl insertOnce acc ↔ b ∈ acc ∨ b ∈ l := by
  induction l with
  | nil => intro acc b; simp
  | cons a t ih =>
      intro acc b
      simp only [List.foldl_cons, ih, mem_insertOnce, List.mem_cons]
      tauto

theorem mem_dedupKeep {α : Type} [DecidableEq α] (l : List α) (b : α) :
    b ∈ dedupKeep l ↔ b ∈ l := by
  unfold dedupKeep; rw [mem_foldl_insertOnce]; simp

theorem nodup_insertOnce {α : Type} [DecidableEq α] (acc : List α) (a : α)
    (h : acc.Nodup) : (insertOnce acc a).Nodup := by
  unfold insertOnce
  by_cases ha : a ∈ acc <;> simp [ha, List.nodup_append, h]

theorem nodup_foldl_insertOnce {α : Type} [DecidableEq α] (l : List α) :
    ∀ acc : List α, acc.Nodup → (l.foldl insertOnce acc).Nodup := by
  induction l with
  | nil => intro acc h; simpa using h
  | cons a t ih => intro acc h; exact ih _ (nodup_insertOnce acc a h)

theorem nodup_dedupKeep {α : Type} [DecidableEq α] (l : List α) :
    (dedupKeep l).Nodup := nodup_foldl_insertOnce l [] List.nodup_nil

theorem foldl_keep {α β : Type} (l : List β) (acc : α) :
    l.foldl (fun a _ => a) acc = acc := by
  induction l generalizing acc with
  | nil => rfl
  | cons b t ih => simp only [List.foldl_cons]; exact ih acc

theorem mem_mutationSweep (mutants : List InputAssignment)
    (gen : Nat → Option Witness) (w0 : Witness) (i : Nat) :
    TestResult.mutationIdentical (i + 1) ∈ mutationSweep mutants gen w0 ↔
      i < mutants.length ∧ gen i = some w0 := by
  unfold mutationSweep
  rw [List.mem_filterMap]
  constructor
  · rintro ⟨a, ha, hfa⟩
    rw [List.mem_range] at ha
    cases hga : gen a with
    | none => rw [hga] at hfa; simp at hfa
    | some w =>
        rw [hga] at hfa
        dsimp only at hfa
        split at hfa
        · rename_i hw
          have ha2 : a + 1 = i + 1 := by
            have := Option.some.inj hfa
            exact TestResult.mutationIdentical.inj this
          have hai : a = i := Nat.succ_injective ha2
          subst hai; subst hw
          exact ⟨ha, hga⟩
        · exact absurd hfa (by simp)
  · rintro ⟨hi, hgen⟩
    refine ⟨i, List.mem_range.mpr hi, ?_⟩
    rw [hgen]
    dsimp only
    rw [if_pos rfl]

/-! ## Claim theorems -/

/-- C2: in the mutation sweep, a trial raises an
`under-constrained-variable` finding of severity high exactly when the
generator succeeds on the mutant and the resulting witness is
byte-identical to the baseline `W0`; a rejected mutant or a differing
witness raises no finding for that trial. -/
theorem mutation_trial_finding_iff (mutants : List InputAssignment)
    (gen : Nat → Option Witness) (w0 : Witness) (i : Nat) :
    (TestResult.mutationIdentical (i + 1) ∈ mutationSweep mutants gen w0 ↔
      i < mutants.length ∧ gen i = some w0) ∧
    testResultType (TestResult.mutationIdentical (i + 1)) = "under-constrained-variable" ∧
    testResultSeverity (TestResult.mutationIdentical (i + 1)) = "high" :=
  ⟨mem_mutationSweep mutants gen w0 i, rfl, rfl⟩

/-- C4: when the baseline witness exists, the input has a (truthy)
`nullifierHash` field and the generator accepts the tampered value,
`testForUnderconstrainedVariables` returns exactly the probe finding —
whatever the mutation sweep would have produced — so no sweep finding
is reported alongside it. -/
theorem probe_short_circuits_sweep (o : FuzzOracle) (template : InputAssignment)
    (w0 : Witness) (hb : o.baselineWitness = Except.ok w0)
    (hn : truthyVal (lookupVal template "nullifierHash") = true)
    (hp : o.probeAccepts = true) :
    testForUnderconstrainedVariables o template = [TestResult.nullifierBypass] := by
  unfold testForUnderconstrainedVariables
  rw [hb]
  simp [hn, hp]

/-- Witness for C4: a concrete oracle and input on which every
hypothesis of `probe_short_circuits_sweep` holds. -/
theorem probe_short_circuits_sweep_witness :
    probeOracle.baselineWitness = Except.ok [1] ∧
    truthyVal (lookupVal nullifierTemplate "nullifierHash") = true ∧
    probeOracle.probeAccepts = true ∧
    testForUnderconstrainedVariables probeOracle nullifierTemplate =
      [TestResult.nullifierBypass] :=
  ⟨rfl, rfl, rfl, probe_short_circuits_sweep probeOracle nullifierTemplate [1] rfl rfl rfl⟩

/-- C9: whatever options object is given — including an explicit
`strictMode: false` — the constructed parser is in strict mode, every
pipeline failure propagates out of `parseR1CSJson` as an error, and the
lenient branch of `handleParsingError` that returns `null` is
unreachable. -/
theorem parser_always_strict (opts : ParserOptions) (e : String) (raw : RawR1CS) :
    (mkR1CSParser opts).strictMode = true ∧
    handleParsingError (mkR1CSParser opts) e = Except.error e ∧
    parseR1CSJson (mkR1CSParser opts) raw ≠ Except.ok none := by
  have hs : (mkR1CSParser opts).strictMode = true := by
    rcases opts with ⟨v, s⟩
    rcases s with _ | b
    · rfl
    · cases b <;> rfl
  refine ⟨hs, ?_, ?_⟩
  · unfold handleParsingError; rw [hs]; rfl
  · unfold parseR1CSJson
    cases hp : parseR1CSPipeline raw with
    | ok d => simp
    | error msg => unfold handleParsingError; rw [hs]; simp

/-- C10: a template without keys produces no mutants, for any requested
mutation count, and the sweep over the (empty) mutant list performs no
trial and raises no finding. -/
theorem empty_template_no_mutants (count : Nat) (r : RandSource)
    (gen : Nat → Option Witness) (w0 : Witness) :
    generateMutatedInputs [] count r = [] ∧
    mutationSweep (generateMutatedInputs [] count r) gen w0 = [] := by
  have h1 : generateMutatedInputs [] count r = [] := by
    unfold generateMutatedInputs
    have hf : (fun (acc : List InputAssignment) (i : Nat) =>
        if ([] : InputAssignment).length = 0 then acc
        else acc ++ [mutateInput r i []]) = fun acc _ => acc := by
      funext acc i; simp
    rw [hf, foldl_keep]
  exact ⟨h1, by rw [h1]; rfl⟩

theorem dedupKeep_append_singleton {α : Type} [DecidableEq α] (l : List α) (a : α) :
    dedupKeep (l ++ [a]) = insertOnce (dedupKeep l) a := by
  unfold dedupKeep
  rw [List.foldl_append]
  rfl

theorem filter_singleton_of_neg {α : Type} (p : α → Bool) (a : α) (h : p a = false) :
    List.filter p [a] = [] := by
  simp [List.filter, h]

theorem filter_singleton_of_pos {α : Type} (p : α → Bool) (a : α) (h : p a = true) :
    List.filter p [a] = [a] := by
  simp [List.filter, h]

theorem map_fst_groupsSpec (hash : Nat → Nat → Nat) (tcs : List NTestCase) :
    (groupsSpec hash tcs).map (fun g => g.1) = nullifierKeysOrder hash tcs := by
  unfold groupsSpec
  rw [List.map_map]
  exact List.map_id' _

theorem addToGroup_spec (hash : Nat → Nat → Nat) (pre : List NTestCase) (tc : NTestCase) :
    addToGroup (groupsSpec hash pre) (computeNullifier hash tc) tc =
      groupsSpec hash (pre ++ [tc]) := by
  unfold addToGroup
  rw [map_fst_groupsSpec]
  have hmaptc : (List.map (computeNullifier hash) [tc]) = [computeNullifier hash tc] := by
    simp
  by_cases hmem : computeNullifier hash tc ∈ nullifierKeysOrder hash pre
  · have hmem2 : computeNullifier hash tc ∈
        dedupKeep (List.map (computeNullifier hash) pre) := hmem
    rw [if_pos hmem]
    unfold groupsSpec
    have hkeys : nullifierKeysOrder hash (pre ++ [tc]) = nullifierKeysOrder hash pre := by
      unfold nullifierKeysOrder
      rw [List.map_append, hmaptc, dedupKeep_append_singleton]
      unfold insertOnce
      rw [if_pos hmem2]
    rw [hkeys, List.map_map]
    apply List.map_congr_left
    intro k hk
    simp only [Function.comp_apply]
    by_cases hke : k = computeNullifier hash tc
    · subst hke
      rw [if_pos rfl, List.filter_append,
        filter_singleton_of_pos
          (fun tc2 => computeNullifier hash tc2 == computeNullifier hash tc) tc
          (beq_self_eq_true _)]
    · rw [if_neg hke, List.filter_append,
        filter_singleton_of_neg (fun tc2 => computeNullifier hash tc2 == k) tc
          (beq_eq_false_iff_ne.mpr (fun he => hke he.symm)),
        List.append_nil]
  · have hmem2 : computeNullifier hash tc ∉
        dedupKeep (List.map (computeNullifier hash) pre) := hmem
    rw [if_neg hmem]
    unfold groupsSpec
    have hkeys : nullifierKeysOrder hash (pre ++ [tc]) =
        nullifierKeysOrder hash pre ++ [computeNullifier hash tc] := by
      unfold nullifierKeysOrder
      rw [List.map_append, hmaptc, dedupKeep_append_singleton]
      unfold insertOnce
      rw [if_neg hmem2]
    rw [hkeys, List.map_append]
    congr 1
    · apply List.map_congr_left
      intro k hk
      have hkne : computeNullifier hash tc ≠ k := fun he => hmem (he ▸ hk)
      rw [List.filter_append,
        filter_singleton_of_neg (fun tc2 => computeNullifier hash tc2 == k) tc
          (beq_eq_false_iff_ne.mpr hkne),
        List.append_nil]
    · simp only [List.map_cons, List.map_nil]
      congr 1
      rw [List.filter_append,
        filter_singleton_of_pos
          (fun tc2 => computeNullifier hash tc2 == computeNullifier hash tc) tc
          (beq_self_eq_true _)]
      have h1 : (pre.filter
          (fun tc2 => computeNullifier hash tc2 == computeNullifier hash tc)) = [] := by
        rw [List.filter_eq_nil_iff]
        intro tc2 htc2 hbeq
        apply hmem
        unfold nullifierKeysOrder
        rw [mem_dedupKeep]
        have he2 : computeNullifier hash tc2 = computeNullifier hash tc :=
          eq_of_beq hbeq
        exact he2 ▸ List.mem_map_of_mem (computeNullifier hash) htc2
      rw [h1]
      rfl

theorem buildGroups_go (hash : Nat → Nat → Nat) :
    ∀ (rest pre : List NTestCase),
      rest.foldl (fun acc tc => addToGroup acc (computeNullifier hash tc) tc)
        (groupsSpec hash pre) = groupsSpec hash (pre ++ rest) := by
  intro rest
  induction rest with
  | nil => intro pre; simp
  | cons tc rest ih =>
      intro pre
      rw [List.foldl_cons, addToGroup_spec, ih (pre ++ [tc])]
      rw [List.append_assoc]
      rfl

theorem buildGroups_spec (hash : Nat → Nat → Nat) (tcs : List NTestCase) :
    buildGroups hash tcs = groupsSpec hash tcs := by
  have h0 : groupsSpec hash [] = [] := by
    unfold groupsSpec nullifierKeysOrder dedupKeep
    simp
  have := buildGroups_go hash tcs []
  rw [h0] at this
  unfold buildGroups
  rw [this]
  rfl

theorem countP_nodup_single {l : List Nat} (hv : Nat) (q : Nat → Bool)
    (hnd : l.Nodup) :
    l.countP (fun k => (k == hv) && q k) = if hv ∈ l ∧ q hv = true then 1 else 0 := by
  induction l with
  | nil => simp
  | cons a t ih =>
      rw [List.nodup_cons] at hnd
      rw [List.countP_cons]
      by_cases ha : a = hv
      · subst ha
        have ht : t.countP (fun k => (k == a) && q k) = 0 := by
          rw [List.countP_eq_zero]
          intro k hk
          have : k ≠ a := fun he => hnd.1 (he ▸ hk)
          simp [beq_eq_false_iff_ne.mpr this]
        rw [ht]
        by_cases hq : q a = true
        · simp [hq]
        · simp [hq]
      · have hhead : ((a == hv) && q a) = false := by
          simp [beq_eq_false_iff_ne.mpr ha]
        rw [hhead, ih hnd.2]
        have hne2 : hv ≠ a := fun he => ha he.symm
        simp only [List.mem_cons]
        by_cases hmem : hv ∈ t <;> by_cases hq : q hv = true <;>
          simp [hmem, hq, hne2]

theorem mem_nullifierKeysOrder_iff (hash : Nat → Nat → Nat) (tcs : List NTestCase)
    (hv : Nat) :
    hv ∈ nullifierKeysOrder hash tcs ↔
      0 < (tcs.filter (fun tc => computeNullifier hash tc == hv)).length := by
  unfold nullifierKeysOrder
  rw [mem_dedupKeep, List.length_pos_iff_ne_nil]
  constructor
  · intro h
    rcases List.mem_map.mp h with ⟨tc, htc, he⟩
    intro hnil
    have : tc ∈ tcs.filter (fun tc2 => computeNullifier hash tc2 == hv) :=
      List.mem_filter.mpr ⟨htc, by rw [he]; exact beq_self_eq_true hv⟩
    rw [hnil] at this
    exact absurd this (List.not_mem_nil tc)
  · intro h
    rcases List.exists_mem_of_ne_nil _ h with ⟨tc, htc⟩
    rcases List.mem_filter.mp htc with ⟨htc2, hbeq⟩
    exact List.mem_map.mpr ⟨tc, htc2, eq_of_beq hbeq⟩

/-- C5: for every hash value, `analyzeNullifierReuse` reports exactly
one vulnerability when at least two scenarios compute that identifier
and none when fewer do, and every reported vulnerability is a
`Nullifier Reuse` record of severity `Critical`. -/
theorem nullifier_reuse_report_iff (hash : Nat → Nat → Nat) (tcs : List NTestCase)
    (hv : Nat) :
    ((analyzeNullifierReuse hash tcs).countP (fun v => v.nullifierHash == hv) =
      if 2 ≤ (tcs.filter (fun tc => computeNullifier hash tc == hv)).length then 1
      else 0) ∧
    ∀ v ∈ analyzeNullifierReuse hash tcs,
      v.vtype = "Nullifier Reuse" ∧ v.severity = "Critical" := by
  constructor
  · rw [analyzeNullifierReuse, buildGroups_spec]
    unfold groupsSpec
    rw [List.countP_map, List.countP_filter, List.countP_map]
    have hfun : ((fun a => ((fun v => NVuln.nullifierHash v == hv) ∘
          (fun g : Nat × List NTestCase =>
            ({ vtype := "Nullifier Reuse", severity := "Critical",
               nullifierHash := g.1, duplicateCases := g.2 } : NVuln))) a &&
            decide (1 < a.2.length)) ∘
          (fun hv2 => (hv2, List.filter (fun tc => computeNullifier hash tc == hv2) tcs))) =
        fun k => (k == hv) &&
          (fun k2 => decide
            (1 < (List.filter (fun tc => computeNullifier hash tc == k2) tcs).length)) k := by
      funext k
      rfl
    rw [hfun]
    unfold nullifierKeysOrder
    rw [countP_nodup_single hv
        (fun k2 => decide
          (1 < (List.filter (fun tc => computeNullifier hash tc == k2) tcs).length))
        (nodup_dedupKeep (tcs.map (computeNullifier hash)))]
    by_cases h2 : 2 ≤ (List.filter (fun tc => computeNullifier hash tc == hv) tcs).length
    · rw [if_pos h2, if_pos]
      refine ⟨(mem_nullifierKeysOrder_iff hash tcs hv).mpr (by omega), ?_⟩
      exact decide_eq_true (by omega)
    · rw [if_neg h2, if_neg]
      rintro ⟨hmem, hq⟩
      have hlt := of_decide_eq_true hq
      omega
  · intro v hvmem
    rw [analyzeNullifierReuse] at hvmem
    rcases List.mem_map.mp hvmem with ⟨g, hg, he⟩
    rw [← he]
    exact ⟨rfl, rfl⟩

theorem foldl_add_eq_sum {α : Type} (f : α → Nat) (l : List α) :
    ∀ n : Nat, l.foldl (fun acc c => acc + f c) n = n + (l.map f).sum := by
  induction l with
  | nil => intro n; simp
  | cons c t ih =>
      intro n
      rw [List.foldl_cons, ih, List.map_cons, List.sum_cons]
      omega

theorem usageCount_eq_sum (cs : List Triple) (s : String) :
    usageCount cs s =
      (cs.map (fun c => partInc c.l s + partInc c.r s + partInc c.o s)).sum := by
  unfold usageCount
  have hf : (fun (n : Nat) (c : Triple) =>
      n + partInc c.l s + partInc c.r s + partInc c.o s) =
      fun n c => n + (partInc c.l s + partInc c.r s + partInc c.o s) := by
    funext n c; omega
  rw [hf, foldl_add_eq_sum]
  omega

theorem usageCount_pos_mem_seenOrder (cs : List Triple) (s : String)
    (h : 0 < usageCount cs s) : s ∈ seenOrder cs := by
  rw [usageCount_eq_sum] at h
  have hex : ∃ c ∈ cs, 0 < partInc c.l s + partInc c.r s + partInc c.o s := by
    by_contra hall
    push_neg at hall
    have : (cs.map (fun c => partInc c.l s + partInc c.r s + partInc c.o s)).sum = 0 := by
      rw [List.sum_eq_zero_iff]
      intro x hx
      rcases List.mem_map.mp hx with ⟨c, hc, he⟩
      have := hall c hc
      omega
    omega
  rcases hex with ⟨c, hc, hpos⟩
  unfold seenOrder
  rw [mem_dedupKeep]
  unfold allKeys
  rw [List.mem_filter]
  have hmem : s ∈ c.l ∨ s ∈ c.r ∨ s ∈ c.o := by
    unfold partInc at hpos
    by_contra hno
    push_neg at hno
    simp [hno.1, hno.2.1, hno.2.2] at hpos
  have hs0 : s ≠ "0" := by
    unfold partInc at hpos
    by_contra he
    simp [he] at hpos
  refine ⟨List.mem_flatMap.mpr ⟨c, hc, ?_⟩, by simpa using hs0⟩
  rcases hmem with h1 | h1 | h1 <;> simp [h1]

theorem ftype_ne_of_mem_leaf (d : R1CSData) (f : Finding)
    (hf : f ∈ ((buildGraph d.constraints).filter (fun e => e.2 = [])).map
      (fun e => mkLeafFinding e.1)) : f.ftype = "potential-leaf-signal" := by
  rcases List.mem_map.mp hf with ⟨e, he, hfe⟩
  rw [← hfe]
  rfl

/-- C1 (amended): the usage count of a signal is the number of
(constraint, part) pairs whose key set contains it — one increment per
part, not per constraint — and a `potential-unconstrained-signal`
finding (severity high) is raised for a signal exactly when that count
is one. -/
theorem mem_unconstrained_iff (d : R1CSData) (s : String) :
    mkUnconstrainedFinding s ∈ analyzeR1CSConstraints d ↔
      usageCount d.constraints s = 1 := by
  unfold analyzeR1CSConstraints
  simp only [List.mem_append, List.mem_map, List.mem_filter]
  constructor
  · rintro ((⟨e, he, hfe⟩ | hdisc) | ⟨s2, hs2, hfe⟩)
    · have hx : ("potential-leaf-signal" : String) = "potential-unconstrained-signal" :=
        congrArg Finding.ftype hfe
      exact absurd hx (by decide)
    · have hmem : mkUnconstrainedFinding s ∈
          (if 1 < (findConnectedComponents (buildGraph d.constraints)).length
           then [mkDisconnectedFinding] else []) := hdisc
      split at hmem
      · have he := List.mem_singleton.mp hmem
        have hx : ("potential-unconstrained-signal" : String) =
            "disconnected-constraint-graph" := congrArg Finding.ftype he
        exact absurd hx (by decide)
      · exact absurd hmem (List.not_mem_nil _)
    · rcases hs2 with ⟨hs2o, hs2c⟩
      have hse : s2 = s := by
        have := congrArg Finding.signal hfe
        simpa [mkUnconstrainedFinding] using this
      subst hse
      exact of_decide_eq_true hs2c
  · intro h1
    refine Or.inr ⟨s, ⟨?_, ?_⟩, rfl⟩
    · exact usageCount_pos_mem_seenOrder _ _ (by omega)
    · exact decide_eq_true h1

/-- C8 (amended): a `potential-leaf-signal` finding (severity medium)
is raised for `s` exactly when `s` is a key of the constraint graph
whose outgoing edge set is empty; signals occurring only as edge
targets are never inspected, and output-ness is not consulted. -/
theorem mem_leaf_finding_iff (d : R1CSData) (s : String) :
    mkLeafFinding s ∈ analyzeR1CSConstraints d ↔
      (s, ([] : List String)) ∈ buildGraph d.constraints := by
  unfold analyzeR1CSConstraints
  simp only [List.mem_append, List.mem_map, List.mem_filter]
  constructor
  · rintro ((⟨e, ⟨heg, hee⟩, hfe⟩ | hdisc) | ⟨s2, hs2, hfe⟩)
    · have he1 : e.1 = s := by
        have := congrArg Finding.signal hfe
        simpa [mkLeafFinding] using this
      have he2 : e.2 = [] := of_decide_eq_true hee
      have : e = (s, ([] : List String)) := by
        rw [← he1, ← he2]
      rw [← this]
      exact heg
    · have hmem : mkLeafFinding s ∈
          (if 1 < (findConnectedComponents (buildGraph d.constraints)).length
           then [mkDisconnectedFinding] else []) := hdisc
      split at hmem
      · have he := List.mem_singleton.mp hmem
        have hx : ("potential-leaf-signal" : String) =
            "disconnected-constraint-graph" := congrArg Finding.ftype he
        exact absurd hx (by decide)
      · exact absurd hmem (List.not_mem_nil _)
    · have hx : ("potential-unconstrained-signal" : String) =
          "potential-leaf-signal" := congrArg Finding.ftype hfe
      exact absurd hx (by decide)
  · intro hmem
    exact Or.inl (Or.inl ⟨(s, []), ⟨hmem, decide_eq_true rfl⟩, rfl⟩)

/-- C3 (amended): the analysis raises exactly one
`disconnected-constraint-graph` finding (severity high) when
`findConnectedComponents` — a depth-first traversal following the
directed edges only — returns more than one component, and none
otherwise. -/
theorem disconnected_finding_count (d : R1CSData) :
    (analyzeR1CSConstraints d).countP
        (fun f => f.ftype == "disconnected-constraint-graph") =
      if 1 < (findConnectedComponents (buildGraph d.constraints)).length then 1
      else 0 := by
  unfold analyzeR1CSConstraints
  rw [List.countP_append, List.countP_append]
  have hleaf : (((buildGraph d.constraints).filter (fun e => e.2 = [])).map
      (fun e => mkLeafFinding e.1)).countP
        (fun f => f.ftype == "disconnected-constraint-graph") = 0 := by
    rw [List.countP_eq_zero]
    intro f hf
    have hft := ftype_ne_of_mem_leaf d f hf
    rw [hft]
    decide
  have hunc : (((seenOrder d.constraints).filter
      (fun s => usageCount d.constraints s = 1)).map mkUnconstrainedFinding).countP
        (fun f => f.ftype == "disconnected-constraint-graph") = 0 := by
    rw [List.countP_eq_zero]
    intro f hf
    rcases List.mem_map.mp hf with ⟨s, hs, he⟩
    rw [← he]
    show ¬(("potential-unconstrained-signal" : String) == "disconnected-constraint-graph") = true
    decide
  rw [hleaf, hunc]
  by_cases hc : 1 < (findConnectedComponents (buildGraph d.constraints)).length
  · rw [if_pos hc, if_pos hc]
    decide
  · rw [if_neg hc, if_neg hc]
    decide

/-- C1 counterexample: in `sharedSignalData` the single constraint has
signal `1` in both its L and O parts, so the signal touches exactly
one constraint yet its usage count is 2 (one increment per part), and
no `potential-unconstrained-signal` finding is raised for it although
it occurs in exactly one constraint — refuting both halves of the
claim. -/
theorem usage_count_per_part_counterexample :
    usageCount sharedSignalData.constraints "1" = 2 ∧
    constraintsTouching sharedSignalData.constraints "1" = 1 ∧
    (analyzeR1CSConstraints sharedSignalData).countP
      (fun f => f.ftype == "potential-unconstrained-signal") = 0 := by
  decide

/-- C8 counterexample: in `leafExampleData` (no declared outputs),
signal `2` is a node of the directed dependency graph (the target of
the edge `1 → 2`) with an empty outgoing edge set and is not an output
signal, yet no `potential-leaf-signal` finding is raised for it — the
check inspects only the keys of the adjacency map. -/
theorem leaf_signal_counterexample :
    "2" ∈ graphNodes (buildGraph leafExampleData.constraints) ∧
    neighborsOf (buildGraph leafExampleData.constraints) "2" = [] ∧
    "2" ∉ outputSignalIds leafExampleData ∧
    mkLeafFinding "2" ∉ analyzeR1CSConstraints leafExampleData := by
  decide

/-- C3 counterexample: in `vShapeData` the graph has the edges `1 → 3`
and `2 → 3`, so treated as undirected it is a single connected
component; but the traversal follows directed edges only, returns the
two components `[1, 3]` and `[2]` — the second not maximal under
undirected reachability, since `3` is adjacent to `2` — and a
`disconnected-constraint-graph` finding is raised. -/
theorem components_directed_counterexample :
    findConnectedComponents (buildGraph vShapeData.constraints) = [["1", "3"], ["2"]] ∧
    "3" ∈ neighborsOf (buildGraph vShapeData.constraints) "2" ∧
    (analyzeR1CSConstraints vShapeData).countP
      (fun f => f.ftype == "disconnected-constraint-graph") = 1 := by
  decide

theorem setKey_map_fst (a : InputAssignment) (key : String) (v : JsVal) :
    (setKey a key v).map Prod.fst = a.map Prod.fst := by
  unfold setKey
  rw [List.map_map]
  apply List.map_congr_left
  intro kv _
  by_cases h : kv.1 = key <;> simp [h]

theorem lookupVal_setKey_ne (a : InputAssignment) (key k2 : String) (v : JsVal)
    (hne : k2 ≠ key) : lookupVal (setKey a key v) k2 = lookupVal a k2 := by
  induction a with
  | nil => rfl
  | cons kv rest ih =>
      unfold setKey at *
      rw [List.map_cons]
      by_cases h : kv.1 = key
      · rw [if_pos h]
        unfold lookupVal
        have : ¬kv.1 = k2 := fun he => hne (he ▸ h)
        rw [if_neg this, if_neg this]
        exact ih
      · rw [if_neg h]
        unfold lookupVal
        by_cases h2 : kv.1 = k2
        · rw [if_pos h2, if_pos h2]
        · rw [if_neg h2, if_neg h2]
          exact ih

theorem lookupVal_of_mem_nodup (t : InputAssignment) (kv : String × JsVal)
    (hnd : (t.map Prod.fst).Nodup) (hmem : kv ∈ t) :
    lookupVal t kv.1 = some kv.2 := by
  induction t with
  | nil => exact absurd hmem (List.not_mem_nil kv)
  | cons kv0 rest ih =>
      rw [List.map_cons, List.nodup_cons] at hnd
      rcases List.mem_cons.mp hmem with he | hrest
      · subst he
        unfold lookupVal
        rw [if_pos rfl]
      · have hk : kv.1 ∈ rest.map Prod.fst := List.mem_map_of_mem Prod.fst hrest
        have hne : ¬kv0.1 = kv.1 := fun he => hnd.1 (he ▸ hk)
        unfold lookupVal
        rw [if_neg hne]
        exact ih hnd.2 hrest

theorem countDiffFields_self (t : InputAssignment)
    (hnd : (t.map Prod.fst).Nodup) : countDiffFields t t = 0 := by
  unfold countDiffFields
  rw [List.length_eq_zero, List.filter_eq_nil_iff]
  intro kv hkv
  rw [lookupVal_of_mem_nodup t kv hnd hkv]
  simp

theorem countDiffFields_setKey_le (t cur : InputAssignment) (key : String) (v : JsVal)
    (hnd : (t.map Prod.fst).Nodup) :
    countDiffFields (setKey cur key v) t ≤ countDiffFields cur t + 1 := by
  unfold countDiffFields
  induction t with
  | nil => simp
  | cons kv rest ih =>
      rw [List.map_cons, List.nodup_cons] at hnd
      have ihr := ih hnd.2
      by_cases hk : kv.1 = key
      · have hrest : rest.filter
            (fun kv2 => !decide (lookupVal (setKey cur key v) kv2.1 = some kv2.2)) =
            rest.filter (fun kv2 => !decide (lookupVal cur kv2.1 = some kv2.2)) := by
          apply List.filter_congr
          intro kv2 hkv2
          have hk2 : kv2.1 ∈ rest.map Prod.fst := List.mem_map_of_mem Prod.fst hkv2
          have hne : kv2.1 ≠ key := fun he => hnd.1 (hk ▸ he ▸ hk2)
          rw [lookupVal_setKey_ne cur key kv2.1 v hne]
        rw [List.filter_cons, List.filter_cons, hrest]
        by_cases h1 : (!decide (lookupVal (setKey cur key v) kv.1 = some kv.2)) = true <;>
          by_cases h2 : (!decide (lookupVal cur kv.1 = some kv.2)) = true <;>
            (simp [h1, h2]; try omega)
      · have hhead : lookupVal (setKey cur key v) kv.1 = lookupVal cur kv.1 :=
          lookupVal_setKey_ne cur key kv.1 v hk
        rw [List.filter_cons, List.filter_cons, hhead]
        by_cases h2 : (!decide (lookupVal cur kv.1 = some kv.2)) = true <;>
          (simp [h2]; try omega)

theorem countDiffFields_mutatePick_le (t cur : InputAssignment) (r : RandSource)
    (keys : List String) (i j : Nat) (hnd : (t.map Prod.fst).Nodup) :
    countDiffFields (mutatePick r keys i cur j) t ≤ countDiffFields cur t + 1 := by
  simp only [mutatePick]
  split
  · exact countDiffFields_setKey_le t cur _ _ hnd
  · exact countDiffFields_setKey_le t cur _ _ hnd
  · omega

theorem countDiffFields_foldl_picks (t : InputAssignment) (r : RandSource)
    (keys : List String) (i : Nat) (hnd : (t.map Prod.fst).Nodup) :
    ∀ (l : List Nat) (cur : InputAssignment),
      countDiffFields (l.foldl (mutatePick r keys i) cur) t ≤
        countDiffFields cur t + l.length := by
  intro l
  induction l with
  | nil => intro cur; simp
  | cons j rest ih =>
      intro cur
      rw [List.foldl_cons]
      have h1 := ih (mutatePick r keys i cur j)
      have h2 := countDiffFields_mutatePick_le t cur r keys i j hnd
      simp only [List.length_cons]
      omega

theorem mutatePick_map_fst (cur : InputAssignment) (r : RandSource)
    (keys : List String) (i j : Nat) :
    (mutatePick r keys i cur j).map Prod.fst = cur.map Prod.fst := by
  simp only [mutatePick]
  split
  · exact setKey_map_fst cur _ _
  · exact setKey_map_fst cur _ _
  · rfl

theorem foldl_picks_map_fst (r : RandSource) (keys : List String) (i : Nat) :
    ∀ (l : List Nat) (cur : InputAssignment),
      (l.foldl (mutatePick r keys i) cur).map Prod.fst = cur.map Prod.fst := by
  intro l
  induction l with
  | nil => intro cur; rfl
  | cons j rest ih =>
      intro cur
      rw [List.foldl_cons, ih, mutatePick_map_fst]

theorem mutateInput_map_fst (template : InputAssignment) (r : RandSource) (i : Nat) :
    (mutateInput r i template).map Prod.fst = template.map Prod.fst := by
  unfold mutateInput
  rw [foldl_picks_map_fst]

theorem mutateInput_diff_le_three (template : InputAssignment) (r : RandSource) (i : Nat)
    (hnd : (template.map Prod.fst).Nodup) :
    countDiffFields (mutateInput r i template) template ≤ 3 := by
  simp only [mutateInput]
  have hb := countDiffFields_foldl_picks template r (template.map (fun kv => kv.1)) i hnd
    (List.range (min (r.fieldsDraw i % 3 + 1) (template.map (fun kv => kv.1)).length))
    template
  rw [countDiffFields_self template hnd, List.length_range] at hb
  have hm : min (r.fieldsDraw i % 3 + 1) (template.map (fun kv => kv.1)).length ≤ 3 := by
    have : r.fieldsDraw i % 3 < 3 := Nat.mod_lt _ (by omega)
    omega
  omega

theorem mem_generateMutatedInputs_aux (template : InputAssignment) (r : RandSource) :
    ∀ (l : List Nat) (acc : List InputAssignment),
      (∀ m ∈ acc, ∃ i, m = mutateInput r i template) →
      ∀ m ∈ l.foldl
          (fun acc i => if template.length = 0 then acc
            else acc ++ [mutateInput r i template]) acc,
        ∃ i, m = mutateInput r i template := by
  intro l
  induction l with
  | nil => intro acc hacc; simpa using hacc
  | cons i rest ih =>
      intro acc hacc m hm
      rw [List.foldl_cons] at hm
      refine ih _ ?_ m hm
      intro m2 hm2
      by_cases h0 : template.length = 0
      · rw [if_pos h0] at hm2
        exact hacc m2 hm2
      · rw [if_neg h0] at hm2
        rcases List.mem_append.mp hm2 with hold | hnew
        · exact hacc m2 hold
        · exact ⟨i, List.mem_singleton.mp hnew⟩

/-- C6 counterexample: with all random draws zero, the single mutant of
the all-zero one-key template replaces the value `"0"` by the fresh
random field element `0 % p = 0`, i.e. `"0"` again — the mutant is
identical to the template and differs from it in zero fields, not in
one to three. -/
theorem mutation_zero_diff_counterexample :
    generateMutatedInputs oneKeyTemplate 1 zeroRand = [oneKeyTemplate] ∧
    countDiffFields oneKeyTemplate oneKeyTemplate = 0 := by
  decide

/-- C6 (amended): every mutant keeps exactly the keys of the template and
differs from the template in at most three fields (between one and
`min(3, #keys)` picks are made, chosen with replacement, and a pick may
redraw the original value, so the difference can be as low as zero). -/
theorem generateMutatedInputs_diff_bound (template : InputAssignment) (count : Nat)
    (r : RandSource) (hnd : (template.map Prod.fst).Nodup) :
    ∀ m ∈ generateMutatedInputs template count r,
      m.map Prod.fst = template.map Prod.fst ∧ countDiffFields m template ≤ 3 := by
  intro m hm
  have hmem := mem_generateMutatedInputs_aux template r (List.range count) []
    (by intro m2 hm2; exact absurd hm2 (List.not_mem_nil m2)) m hm
  rcases hmem with ⟨i, rfl⟩
  exact ⟨mutateInput_map_fst template r i, mutateInput_diff_le_three template r i hnd⟩

/-- Witness for the amended C6 theorem at a concrete template, mutant
and random source. -/
theorem generateMutatedInputs_diff_bound_witness :
    (oneKeyTemplate.map Prod.fst).Nodup ∧
    oneKeyTemplate ∈ generateMutatedInputs oneKeyTemplate 1 zeroRand ∧
    (oneKeyTemplate.map Prod.fst = oneKeyTemplate.map Prod.fst ∧
      countDiffFields oneKeyTemplate oneKeyTemplate ≤ 3) :=
  ⟨by decide, by decide,
    generateMutatedInputs_diff_bound oneKeyTemplate 1 zeroRand (by decide)
      oneKeyTemplate (by decide)⟩

theorem uniqAux_spec (rest : List PSignal) :
    ∀ (seen : List String) (i : Nat),
      checkSignalUniquenessAux seen i rest = Except.ok () ∨
      ∃ n k, checkSignalUniquenessAux seen i rest = Except.error (dupMsg n (i + k)) ∧
        rest.get? k = some ⟨n⟩ ∧ n ∈ seen ++ (rest.take k).map PSignal.name := by
  induction rest with
  | nil => intro seen i; exact Or.inl rfl
  | cons s rest ih =>
      intro seen i
      unfold checkSignalUniquenessAux
      by_cases hmem : s.name ∈ seen
      · rw [if_pos hmem]
        refine Or.inr ⟨s.name, 0, ?_, rfl, ?_⟩
        · rw [Nat.add_zero]
        · simpa using hmem
      · rw [if_neg hmem]
        rcases ih (seen ++ [s.name]) (i + 1) with hok | ⟨n, k, herr, hget, hmem2⟩
        · exact Or.inl hok
        · refine Or.inr ⟨n, k + 1, ?_, hget, ?_⟩
          · rw [herr]
            have : i + 1 + k = i + (k + 1) := by omega
            rw [this]
          · rw [List.append_assoc] at hmem2
            simpa using hmem2

theorem uniqAux_ok_nodup (rest : List PSignal) :
    ∀ (seen : List String) (i : Nat),
      checkSignalUniquenessAux seen i rest = Except.ok () → seen.Nodup →
      (seen ++ rest.map PSignal.name).Nodup := by
  induction rest with
  | nil => intro seen i _ hseen; simpa using hseen
  | cons s rest ih =>
      intro seen i h hseen
      unfold checkSignalUniquenessAux at h
      by_cases hmem : s.name ∈ seen
      · rw [if_pos hmem] at h
        exact absurd h (by simp)
      · rw [if_neg hmem] at h
        have hseen2 : (seen ++ [s.name]).Nodup := by
          rw [List.nodup_append]
          exact ⟨hseen, List.nodup_singleton _, by simpa using hmem⟩
        have := ih (seen ++ [s.name]) (i + 1) h hseen2
        rw [List.append_assoc] at this
        simpa using this

theorem checkEntriesRefs_spec (signals : List PSignal) (i : Nat) (es : List String) :
    checkEntriesRefs signals i es = Except.ok () ∨
    ∃ s, checkEntriesRefs signals i es = Except.error (refMsg i s) ∧ s ∈ es ∧
      ∀ g ∈ signals, g.name ≠ s := by
  induction es with
  | nil => exact Or.inl rfl
  | cons s rest ih =>
      unfold checkEntriesRefs
      by_cases hany : signals.any (fun g => g.name = s) = true
      · rw [if_pos hany]
        rcases ih with hok | ⟨s2, herr, hmem, hno⟩
        · exact Or.inl hok
        · exact Or.inr ⟨s2, herr, List.mem_cons_of_mem s hmem, hno⟩
      · rw [if_neg hany]
        refine Or.inr ⟨s, rfl, List.mem_cons_self s rest, ?_⟩
        intro g hg he
        apply hany
        rw [List.any_eq_true]
        exact ⟨g, hg, decide_eq_true he⟩

theorem checkEntriesRefs_ok (signals : List PSignal) (i : Nat) (es : List String)
    (h : checkEntriesRefs signals i es = Except.ok ()) :
    ∀ s ∈ es, ∃ g ∈ signals, g.name = s := by
  induction es with
  | nil => intro s hs; exact absurd hs (List.not_mem_nil s)
  | cons s rest ih =>
      unfold checkEntriesRefs at h
      by_cases hany : signals.any (fun g => g.name = s) = true
      · rw [if_pos hany] at h
        intro s2 hs2
        rcases List.mem_cons.mp hs2 with he | hrest
        · subst he
          rw [List.any_eq_true] at hany
          rcases hany with ⟨g, hg, hd⟩
          exact ⟨g, hg, of_decide_eq_true hd⟩
        · exact ih h s2 hrest
      · rw [if_neg hany] at h
        exact absurd h (by simp)

theorem consAux_spec (signals : List PSignal) (cs : List PConstraint) :
    ∀ i : Nat,
      checkConstraintConsistencyAux signals i cs = Except.ok () ∨
      ∃ k c s, checkConstraintConsistencyAux signals i cs =
          Except.error (refMsg (i + k) s) ∧
        cs.get? k = some c ∧ s ∈ entrySignals c ∧ ∀ g ∈ signals, g.name ≠ s := by
  induction cs with
  | nil => intro i; exact Or.inl rfl
  | cons c rest ih =>
      intro i
      unfold checkConstraintConsistencyAux
      rcases checkEntriesRefs_spec signals i (entrySignals c) with hok | ⟨s, herr, hmem, hno⟩
      · rw [hok]
        rcases ih (i + 1) with hok2 | ⟨k, c2, s, herr2, hget, hmem2, hno2⟩
        · exact Or.inl hok2
        · refine Or.inr ⟨k + 1, c2, s, ?_, hget, hmem2, hno2⟩
          rw [herr2]
          have : i + 1 + k = i + (k + 1) := by omega
          rw [this]
      · rw [herr]
        refine Or.inr ⟨0, c, s, ?_, rfl, hmem, hno⟩
        show Except.error (refMsg i s) = Except.error (refMsg (i + 0) s)
        rw [Nat.add_zero]

theorem consAux_ok (signals : List PSignal) (cs : List PConstraint) :
    ∀ i : Nat, checkConstraintConsistencyAux signals i cs = Except.ok () →
      ∀ k c, cs.get? k = some c → ∀ s ∈ entrySignals c, ∃ g ∈ signals, g.name = s := by
  induction cs with
  | nil =>
      intro i _ k c hget
      rw [List.get?_nil] at hget
      exact absurd hget (by simp)
  | cons c0 rest ih =>
      intro i h k c hget
      unfold checkConstraintConsistencyAux at h
      cases he : checkEntriesRefs signals i (entrySignals c0) with
      | ok u =>
          cases u
          rw [he] at h
          cases k with
          | zero =>
              rw [List.get?_cons_zero] at hget
              have hc : c0 = c := Option.some.inj hget
              subst hc
              exact checkEntriesRefs_ok signals i _ he
          | succ k2 =>
              rw [List.get?_cons_succ] at hget
              exact ih (i + 1) h k2 c hget
      | error e =>
          rw [he] at h
          exact absurd h (by simp)

theorem detailed_error_of_uniq (d : ProcessedR1CS) (e : String)
    (h : checkSignalUniqueness d.signals = Except.error e) :
    performDetailedValidation d = Except.error e := by
  unfold performDetailedValidation
  rw [h]
  rfl

theorem detailed_error_of_cons (d : ProcessedR1CS) (e : String)
    (hu : checkSignalUniqueness d.signals = Except.ok ())
    (h : checkConstraintConsistency d = Except.error e) :
    performDetailedValidation d = Except.error e := by
  unfold performDetailedValidation
  rw [hu]
  show checkConstraintConsistency d = Except.error e
  exact h

theorem pipeline_error_of_detailed (raw : RawR1CS) (e : String)
    (hval : validateR1CSStructure raw = Except.ok ())
    (hdet : performDetailedValidation (processR1CSData raw) = Except.error e) :
    parseR1CSPipeline raw = Except.error e := by
  unfold parseR1CSPipeline
  rw [hval]
  show (performDetailedValidation (processR1CSData raw)).bind
    (fun _ => Except.ok (processR1CSData raw)) = Except.error e
  rw [hdet]
  rfl

/-- C7: in strict mode, once the structural validation has passed, a
duplicated signal name or a constraint referencing a name absent from
the signal list makes `parseR1CSJson` fail with an error naming the
offending signal or constraint index, and no processed data is
returned. -/
theorem strict_parse_rejects_bad_input (cfg : ParserConfig) (raw : RawR1CS)
    (hstrict : cfg.strictMode = true)
    (hval : validateR1CSStructure raw = Except.ok ())
    (hbad : hasDuplicateName (processR1CSData raw).signals ∨
      hasDanglingRef (processR1CSData raw)) :
    ∃ msg, parseR1CSJson cfg raw = Except.error msg ∧
      offenseNamed (processR1CSData raw) msg ∧
      ∀ d2, parseR1CSJson cfg raw ≠ Except.ok d2 := by
  rcases uniqAux_spec (processR1CSData raw).signals [] 0 with huok |
    ⟨n, k, herr, hget, hmem⟩
  · have hnd : ((processR1CSData raw).signals.map PSignal.name).Nodup := by
      have := uniqAux_ok_nodup (processR1CSData raw).signals [] 0 huok List.nodup_nil
      simpa using this
    have hdang : hasDanglingRef (processR1CSData raw) := by
      rcases hbad with hdup | hd
      · exact absurd hnd hdup
      · exact hd
    rcases consAux_spec (processR1CSData raw).signals (processR1CSData raw).constraints 0
      with hcok | ⟨k, c, s, herr2, hget2, hmem2, hno2⟩
    · exfalso
      rcases hdang with ⟨k, c, hget2, s, hmem2, hno2⟩
      rcases consAux_ok (processR1CSData raw).signals (processR1CSData raw).constraints 0
        hcok k c hget2 s hmem2 with ⟨g, hg, he⟩
      exact hno2 g hg he
    · rw [Nat.zero_add] at herr2
      have hdet := detailed_error_of_cons (processR1CSData raw) (refMsg k s) huok herr2
      have hpipe := pipeline_error_of_detailed raw (refMsg k s) hval hdet
      have hparse : parseR1CSJson cfg raw = Except.error (refMsg k s) := by
        unfold parseR1CSJson
        rw [hpipe]
        unfold handleParsingError
        rw [hstrict]
        rfl
      refine ⟨refMsg k s, hparse, Or.inr ⟨k, s, rfl, c, hget2, hmem2, hno2⟩, ?_⟩
      intro d2 h2
      rw [hparse] at h2
      exact absurd h2 (by simp)
  · rw [Nat.zero_add] at herr
    have hdet := detailed_error_of_uniq (processR1CSData raw) (dupMsg n k) herr
    have hpipe := pipeline_error_of_detailed raw (dupMsg n k) hval hdet
    have hparse : parseR1CSJson cfg raw = Except.error (dupMsg n k) := by
      unfold parseR1CSJson
      rw [hpipe]
      unfold handleParsingError
      rw [hstrict]
      rfl
    refine ⟨dupMsg n k, hparse, Or.inl ⟨n, k, rfl, hget, by simpa using hmem⟩, ?_⟩
    intro d2 h2
    rw [hparse] at h2
    exact absurd h2 (by simp)

/-- Witness for C7: a raw document whose signal list repeats the name
`a`, parsed under a strict configuration. -/
theorem strict_parse_rejects_bad_input_witness :
    strictCfg.strictMode = true ∧
    validateR1CSStructure dupSignalRaw = Except.ok () ∧
    hasDuplicateName (processR1CSData dupSignalRaw).signals ∧
    ∃ msg, parseR1CSJson strictCfg dupSignalRaw = Except.error msg ∧
      offenseNamed (processR1CSData dupSignalRaw) msg ∧
      ∀ d2, parseR1CSJson strictCfg dupSignalRaw ≠ Except.ok d2 :=
  ⟨rfl, rfl, by unfold hasDuplicateName; decide,
    strict_parse_rejects_bad_input strictCfg dupSignalRaw rfl rfl
      (Or.inl (by unfold hasDuplicateName; decide))⟩
